import Mathlib

/-!
Verification of the variant-image mapping engine: a shallow embedding of
the mapping/settings normalizers (src/app/models/variant-images.server.js),
the storefront resolution script (the gallery filter), and the admin
assignment mapping updates, together with proofs of the documented
properties.

JSON values are modelled by the inductive type `Js`.  JavaScript objects
are modelled as association lists whose list order stands for the
object's entry-iteration order; keys of real JS objects are unique, and
the assignment `obj[k] = v` is modelled by `setKey` (replace in place or
append).  `JSON.parse` is kept abstract as a function
`parse : String → Option Js` (`none` models a parse exception).
-/

namespace VariantImage

/-- Model of a JavaScript/JSON value. -/
inductive Js where
  | null : Js
  | bool : Bool → Js
  | num : Int → Js
  | str : String → Js
  | arr : List Js → Js
  | obj : List (String × Js) → Js
deriving Repr

/-- JavaScript truthiness of a value. -/
def jsTruthy : Js → Bool
  | .null => false
  | .bool b => b
  | .num n => n != 0
  | .str s => s ≠ ""
  | .arr _ => true
  | .obj _ => true

mutual

/-- JavaScript `String(v)` coercion (arrays join their elements with commas,
with `null` elements becoming empty; plain objects print as
`[object Object]`). -/
def jsToString : Js → String
  | .null => "null"
  | .bool b => if b then "true" else "false"
  | .num n => toString n
  | .str s => s
  | .arr l => String.intercalate "," (jsToStringElems l)
  | .obj _ => "[object Object]"

/-- Array elements under `String(...)`: `null` elements become empty. -/
def jsToStringElems : List Js → List String
  | [] => []
  | Js.null :: rest => "" :: jsToStringElems rest
  | x :: rest => jsToString x :: jsToStringElems rest

end

/-- Property read `v[k]`: only plain objects carry named fields; `none`
models JavaScript `undefined`. -/
def getField : Js → String → Option Js
  | .obj e, k => (e.find? (fun p => p.1 = k)).map Prod.snd
  | _, _ => none

/-- A field read where a stored JS `null` behaves like an absent field
(the behaviour of the `??` operator on the read value). -/
def getFieldNN (j : Js) (k : String) : Option Js :=
  match getField j k with
  | some .null => none
  | o => o

/-- `typeof v === "object" && v` (arrays included, `null` excluded). -/
def isObjLike : Js → Bool
  | .obj _ => true
  | .arr _ => true
  | _ => false

/-! ### Association-list operations modelling JS objects and Maps -/

/-- Object property lookup on an entry list (first matching key). -/
def lookupKey {α : Type} : List (String × α) → String → Option α
  | [], _ => none
  | p :: rest, k => if p.1 = k then some p.2 else lookupKey rest k

/-- Whether an entry list carries the key. -/
def containsKey {α : Type} (m : List (String × α)) (k : String) : Bool :=
  m.any (fun p => p.1 = k)

/-- The assignment `obj[k] = v`: replace the value in place when the key
exists, otherwise append a new entry (JS property-order semantics). -/
def setKey {α : Type} (m : List (String × α)) (k : String) (v : α) : List (String × α) :=
  if containsKey m k then
    m.map (fun p => if p.1 = k then (k, v) else p)
  else
    m ++ [(k, v)]

/-- JS `Array.prototype.includes` on a string list. -/
def jsIncludes (l : List String) (x : String) : Bool :=
  l.any (fun y => y = x)

/-- Set-insertion walk: keep each element whose value has not been seen
yet, tracking the seen values. -/
def jsDedupGo (seen : List String) : List String → List String
  | [] => []
  | x :: xs =>
    if jsIncludes seen x then jsDedupGo seen xs
    else x :: jsDedupGo (seen ++ [x]) xs

/-- `[...new Set(l)]`: de-duplication keeping first occurrences. -/
def jsDedup (l : List String) : List String :=
  jsDedupGo [] l

/-! ### Character-list string machinery -/

/-- `s.split(sep)` for a one-character separator, on the character list. -/
def splitOnChar (sep : Char) : List Char → List (List Char)
  | [] => [[]]
  | c :: rest =>
    let r := splitOnChar sep rest
    if c = sep then [] :: r
    else
      match r with
      | [] => [[c]]
      | h :: t => (c :: h) :: t

/-- `s.split(sep).pop()`: the final segment. -/
def lastSegment (sep : Char) (s : String) : String :=
  String.mk ((splitOnChar sep s.data).getLastD [])

/-- `toNumericId` (src/unnamed/part_002, also imported by the server
model as `../utils/ids`): strip a `gid://shopify/X/` prefix by taking the
last `/`-separated segment of the string form; falsy input gives `""`. -/
def toNumericId (gid : Js) : String :=
  if jsTruthy gid then lastSegment '/' (jsToString gid) else ""

/-! ### safeParseJson and the settings normalizer
(src/app/models/variant-images.server.js) -/

/-- `safeParseJson(value, fallback)`: `null` and `""` give the fallback,
objects and arrays pass through, strings go through `JSON.parse` with the
fallback on failure.  Numbers and booleans re-parse to themselves
(`JSON.parse(String(v))`). -/
def safeParseJson (parse : String → Option Js) (value : Js) (fallback : Js) : Js :=
  match value with
  | .null => fallback
  | .str s => if s = "" then fallback else (parse s).getD fallback
  | .obj e => .obj e
  | .arr l => .arr l
  | .num n => .num n
  | .bool b => .bool b

/-- The settings record: always fully populated. -/
structure Settings where
  enabled : Bool
  allowSharedImages : Bool
  hideUnassignedImages : Bool
deriving Repr, DecidableEq

/-- `DEFAULT_SETTINGS` from the server model. -/
def DEFAULT_SETTINGS : Settings :=
  { enabled := true, allowSharedImages := true, hideUnassignedImages := false }

/-- `normalizeSettings(rawSettings)`: parse permissively, then accept each
field only when it is exactly boolean-typed. -/
def normalizeSettings (parse : String → Option Js) (rawSettings : Js) : Settings :=
  let input := safeParseJson parse rawSettings (.obj [])
  { enabled :=
      match getField input "enabled" with
      | some (.bool b) => b
      | _ => DEFAULT_SETTINGS.enabled
    allowSharedImages :=
      match getField input "allowSharedImages" with
      | some (.bool b) => b
      | _ => DEFAULT_SETTINGS.allowSharedImages
    hideUnassignedImages :=
      match getField input "hideUnassignedImages" with
      | some (.bool b) => b
      | _ => DEFAULT_SETTINGS.hideUnassignedImages }

/-! ### Mapping normalizers (src/app/models/variant-images.server.js) -/

/-- `parsed && typeof parsed === "object" && parsed.mapping ? parsed.mapping : parsed`. -/
def sourceOf (parsed : Js) : Js :=
  match getField parsed "mapping" with
  | some v => if jsTruthy v then v else parsed
  | none => parsed

/-- The candidate image list of one mapping entry's value: a direct array,
or the `imageIds` array of an object, or empty. -/
def candidateImagesOf (value : Js) : List Js :=
  match value with
  | .arr l => l
  | v =>
    match getField v "imageIds" with
    | some (.arr l) => l
    | _ => []

/-- `[...new Set(candidate.map(toNumericId).filter(Boolean))].filter(validImageSet.has)`. -/
def mkImageIds (candidate : List Js) (validImageSet : Option (List String)) : List String :=
  (jsDedup ((candidate.map toNumericId).filter (fun i => i ≠ ""))).filter
    (fun i =>
      match validImageSet with
      | some s => jsIncludes s i
      | none => true)

/-- Entry loop of `normalizeMapping` (keys normalized to numeric variant
IDs; empty results dropped). -/
def nmLoop (validVariantSet validImageSet : Option (List String)) :
    List (String × Js) → List (String × List String) → List (String × List String)
  | [], acc => acc
  | (rawVariantId, value) :: rest, acc =>
    let variantId := toNumericId (.str rawVariantId)
    if variantId = "" then nmLoop validVariantSet validImageSet rest acc
    else if (match validVariantSet with
             | some s => !(jsIncludes s variantId)
             | none => false) then
      nmLoop validVariantSet validImageSet rest acc
    else
      let imageIds := mkImageIds (candidateImagesOf value) validImageSet
      if imageIds = [] then nmLoop validVariantSet validImageSet rest acc
      else nmLoop validVariantSet validImageSet rest (setKey acc variantId imageIds)

/-- `normalizeMapping(rawMapping, validVariantIds, validImageIds)`. -/
def normalizeMapping (parse : String → Option Js) (rawMapping : Js)
    (validVariantIds : List Js) (validImageIds : List Js) : List (String × List String) :=
  match sourceOf (safeParseJson parse rawMapping (.obj [])) with
  | .obj entries =>
    nmLoop
      (if validVariantIds.isEmpty then none else some (validVariantIds.map toNumericId))
      (if validImageIds.isEmpty then none else some (validImageIds.map toNumericId))
      entries []
  | _ => []

/-- Entry loop of `normalizeOptionMapping` (keys are option values,
validated verbatim against the declared value set). -/
def nomLoop (validValuesSet validImageSet : Option (List String)) :
    List (String × Js) → List (String × List String) → List (String × List String)
  | [], acc => acc
  | (optionValue, value) :: rest, acc =>
    if optionValue = "" then nomLoop validValuesSet validImageSet rest acc
    else if (match validValuesSet with
             | some s => !(jsIncludes s optionValue)
             | none => false) then
      nomLoop validValuesSet validImageSet rest acc
    else
      let imageIds := mkImageIds (candidateImagesOf value) validImageSet
      if imageIds = [] then nomLoop validValuesSet validImageSet rest acc
      else nomLoop validValuesSet validImageSet rest (setKey acc optionValue imageIds)

/-- `normalizeOptionMapping(rawMapping, validOptionValues, validImageIds)`. -/
def normalizeOptionMapping (parse : String → Option Js) (rawMapping : Js)
    (validOptionValues : List String) (validImageIds : List Js) :
    List (String × List String) :=
  match sourceOf (safeParseJson parse rawMapping (.obj [])) with
  | .obj entries =>
    nomLoop
      (if validOptionValues.isEmpty then none else some validOptionValues)
      (if validImageIds.isEmpty then none else some (validImageIds.map toNumericId))
      entries []
  | _ => []

/-- One product option definition `{name, values}`. -/
structure ProductOption where
  name : String
  values : List String
deriving Repr, DecidableEq

/-- One product variant `{id, selectedOptions:[{name,value}]}`. -/
structure Variant where
  id : Js
  selectedOptions : List (String × String)
deriving Repr

/-- The canonical mapping `{mode, optionName, mapping}`. -/
structure CanonicalMapping where
  mode : String
  optionName : String
  mapping : List (String × List String)
deriving Repr, DecidableEq

/-- `optionsList[0]?.name ?? "Option"`. -/
def fallbackOptionName (opts : List ProductOption) : String :=
  match opts.head? with
  | some o => o.name
  | none => "Option"

/-- Validation of a persisted `optionName` against the real option names. -/
def resolveOptionName (opts : List ProductOption) (rawName : Option Js) : String :=
  match rawName with
  | some (.str s) => if opts.any (fun o => o.name = s) then s else fallbackOptionName opts
  | _ => fallbackOptionName opts

/-- `optionsList.find((o) => o.name === optionName)?.values ?? []`. -/
def optionValuesOf (opts : List ProductOption) (name : String) : List String :=
  match opts.find? (fun o => o.name = name) with
  | some o => o.values
  | none => []

/-- `(variant.selectedOptions ?? []).find((opt) => opt.name === optionName)?.value ?? null`. -/
def selectedValueFor (v : Variant) (optionName : String) : Option String :=
  match v.selectedOptions.find? (fun p => p.1 = optionName) with
  | some p => some p.2
  | none => none

/-- The `optionValueByVariant` Map of the legacy migration branch. -/
def buildOptionValueByVariant (variants : List Variant) (optionName : String) :
    List (String × Option String) :=
  variants.foldl (fun m v => setKey m (toNumericId v.id) (selectedValueFor v optionName)) []

/-- Legacy migration loop: union the image sets of variants sharing one
option value, skipping variants with no resolvable value. -/
def legacyLoop (optionValueByVariant : List (String × Option String)) :
    List (String × List String) → List (String × List String) → List (String × List String)
  | [], acc => acc
  | (variantId, imageList) :: rest, acc =>
    match lookupKey optionValueByVariant variantId with
    | some (some v) =>
      if v = "" then legacyLoop optionValueByVariant rest acc
      else
        let merged := jsDedup (((lookupKey acc v).getD []) ++ imageList)
        legacyLoop optionValueByVariant rest (setKey acc v merged)
    | _ => legacyLoop optionValueByVariant rest acc

/-- `parsed && typeof parsed === "object" && parsed.mode === "option"`. -/
def isOptionMode (parsed : Js) : Bool :=
  match getField parsed "mode" with
  | some (.str s) => s = "option"
  | _ => false

/-- `normalizeProductMapping(rawValue, productOptions, variants, imageIds)`:
the current-format branch delegates to the option mapping filter; anything
else goes through the legacy variant-ID migration. -/
def normalizeProductMapping (parse : String → Option Js) (rawValue : Js)
    (productOptions : List ProductOption) (variants : List Variant)
    (imageIds : List Js) : CanonicalMapping :=
  if isOptionMode (safeParseJson parse rawValue (.obj [])) then
    { mode := "option",
      optionName := resolveOptionName productOptions
        (getField (safeParseJson parse rawValue (.obj [])) "optionName"),
      mapping := normalizeOptionMapping parse
        (match getField (safeParseJson parse rawValue (.obj [])) "mapping" with
         | some .null => Js.obj []
         | some v => v
         | none => Js.obj [])
        (optionValuesOf productOptions
          (resolveOptionName productOptions
            (getField (safeParseJson parse rawValue (.obj [])) "optionName")))
        imageIds }
  else
    { mode := "option", optionName := fallbackOptionName productOptions,
      mapping := legacyLoop
        (buildOptionValueByVariant variants (fallbackOptionName productOptions))
        (normalizeMapping parse (safeParseJson parse rawValue (.obj []))
          (variants.map (fun v => v.id)) imageIds) [] }

/-- Re-encoding of a canonical mapping as the JSON value the save path
persists (`JSON.stringify` shape). -/
def canonicalToJs (c : CanonicalMapping) : Js :=
  .obj [("mode", .str c.mode), ("optionName", .str c.optionName),
        ("mapping", .obj (c.mapping.map (fun p => (p.1, Js.arr (p.2.map Js.str)))))]

/-! ### Image identity resolver: `baseFilename` (src/unnamed/part_001) -/

/-- Split a character list at its last `.`: the part before it and the
part after it (which contains no further dot).  `none` when no dot. -/
def splitLastDot (cs : List Char) : Option (List Char × List Char) :=
  let rext := cs.reverse.takeWhile (fun c => c ≠ '.')
  if rext.length = cs.length then none
  else some (cs.take (cs.length - rext.length - 1), rext.reverse)

/-- Whether a character list is matched entirely by the regex fragment
`_\d*x\d*` (underscore, digits, `x`, digits — digit runs may be empty). -/
def matchesUnderscoreSize : List Char → Bool
  | '_' :: rest =>
    (match rest.dropWhile (fun c => c.isDigit) with
     | 'x' :: rest2 => rest2.all (fun c => c.isDigit)
     | _ => false)
  | _ => false

/-- Leftmost start index inside the stem at which `_\d*x\d*` runs to the
stem's end (the regex match position of `name.replace(/_\d*x\d*\.([^.]+)$/, ".$1")`). -/
def findSizeStart (stem : List Char) : Option Nat :=
  (List.range (stem.length + 1)).find? (fun i => matchesUnderscoreSize (stem.drop i))

/-- `name.replace(/_\d*x\d*\.([^.]+)$/, ".$1")` on a character list. -/
def stripSizeSuffixL (name : List Char) : List Char :=
  match splitLastDot name with
  | none => name
  | some (stem, ext) =>
    if ext = [] then name
    else
      match findSizeStart stem with
      | none => name
      | some i => stem.take i ++ '.' :: ext

/-- The size-suffix strip on strings. -/
def stripSizeSuffix (name : String) : String :=
  String.mk (stripSizeSuffixL name.data)

/-- `baseFilename(url)`: drop the query string, take the final path
segment, strip a trailing Shopify size suffix. -/
def baseFilenameL (url : List Char) : List Char :=
  if url = [] then []
  else
    let path := (splitOnChar '?' url).headD []
    let name := (splitOnChar '/' path).getLastD []
    stripSizeSuffixL name

/-- `baseFilename` on strings (falsy input gives the empty string). -/
def baseFilename (url : String) : String :=
  String.mk (baseFilenameL url.data)

/-! ### Storefront resolution engine (src/unnamed/part_001)

A displayed markup element is modelled by its resolved image source and
the three visibility marks `setVisible` toggles: the inline
`display:none`, the `aria-hidden` attribute, and the `vi--hidden` class.
The live element lists (gallery selectors and thumbnail selectors) are
modelled as the two lists of a `PageState`.  `activateFirstVisible` only
simulates a click on an already-computed element and changes none of
these marks, so it does not appear in the state transition. -/

/-- A displayed gallery/thumbnail element. -/
structure Elem where
  src : String
  displayNone : Bool
  ariaHidden : Bool
  viHidden : Bool
deriving Repr, DecidableEq

/-- `setVisible(el, visible)`. -/
def setVisible (el : Elem) (visible : Bool) : Elem :=
  if visible then { el with displayNone := false, ariaHidden := false, viHidden := false }
  else { el with displayNone := true, ariaHidden := true, viHidden := true }

/-- The live gallery items and thumbnail items. -/
structure PageState where
  gallery : List Elem
  thumbs : List Elem
deriving Repr, DecidableEq

/-- The data `filterGallery` closes over: the resolved mapping mode and
table, the embedded option data, the filename reverse-lookup, and the
`hideUnassignedImages` setting.  Canonical mapping values are arrays of
image-ID strings, so the table is typed as such, and an absent key
(`undefined`, falsy) is `none` under `lookupKey`. -/
structure FilterCtx where
  mappingMode : String
  mappedOptionName : Option String
  mappingTable : List (String × List String)
  optionNames : Option (List String)
  variantOptions : List (String × List String)
  filenameToId : List (String × String)
  hideUnassigned : Bool
deriving Repr, DecidableEq

/-- Step 1 of `filterGallery`: resolve the mapping key for a variant.  In
option mode with a known option name and an option-name array, the key is
the variant's selected value at the option's index, with `"__unknown__"`
for anything falsy; otherwise the key is the variant ID itself. -/
def resolveMappingKey (ctx : FilterCtx) (variantKey : String) : String :=
  if ctx.mappingMode = "option" then
    match ctx.mappedOptionName, ctx.optionNames with
    | some name, some names =>
      if name = "" then variantKey
      else
        match names.findIdx? (fun n => n = name) with
        | some i =>
          let selected := (lookupKey ctx.variantOptions variantKey).getD []
          let v := selected.getD i ""
          if v = "" then "__unknown__" else v
        | none => variantKey
    | _, _ => variantKey
  else variantKey

/-- `allAssignedImageIds`: every image ID appearing in any mapping entry. -/
def allAssignedIds (table : List (String × List String)) : List String :=
  (table.map Prod.snd).flatten

/-- The per-element visibility decision: resolvable image ID that is
either allowed for this key, or unassigned everywhere while
`hideUnassignedImages` is off. -/
def decideVisible (ctx : FilterCtx) (allowed : List String) (el : Elem) : Bool :=
  match lookupKey ctx.filenameToId (baseFilename el.src) with
  | some imgId =>
    if imgId = "" then false
    else jsIncludes allowed imgId ||
      (!ctx.hideUnassigned && !(jsIncludes (allAssignedIds ctx.mappingTable) imgId))
  | none => false

/-- `showNone()`: hide every gallery and thumbnail element. -/
def showNone (st : PageState) : PageState :=
  { gallery := st.gallery.map (fun el => setVisible el false),
    thumbs := st.thumbs.map (fun el => setVisible el false) }

/-- One recomputation pass `filterGallery(variantId)`: falsy variant IDs
do nothing; an unmapped key hides everything; an empty gallery query
returns before touching anything; otherwise every gallery element and
every thumbnail element gets its independent visibility decision. -/
def filterGallery (ctx : FilterCtx) (st : PageState) (variantId : String) : PageState :=
  if variantId = "" then st
  else
    match lookupKey ctx.mappingTable (resolveMappingKey ctx variantId) with
    | none => showNone st
    | some allowed =>
      if st.gallery = [] then st
      else
        { gallery := st.gallery.map (fun el => setVisible el (decideVisible ctx allowed el)),
          thumbs := st.thumbs.map (fun el => setVisible el (decideVisible ctx allowed el)) }

/-! ### Storefront bootstrap (src/unnamed/part_001, lines 27-64 and `init`)

The embedded JSON block's destructured fields.  `initialVariantId` is the
string form of the embedded value, `""` standing for an absent or falsy
one; `currentVariantId` below stands for what `getCurrentVariantId()`
would read from the page, again `""` when nothing is found. -/

structure BootConfig where
  mapping : Js
  imageUrls : Js
  initialVariantId : String
  settings : Js
  optionNames : Option (List String)
  variantOptions : List (String × List String)
deriving Repr

/-- `Object.entries(imageUrls)`; identity-table values are URL strings by
the embed schema (a non-string value is modelled as the empty URL). -/
def urlEntries : Js → List (String × String)
  | .obj e => e.map (fun p => (p.1, match p.2 with | .str s => s | _ => ""))
  | .arr l => l.enum.map (fun p => (toString p.1, match p.2 with | .str s => s | _ => ""))
  | _ => []

/-- The `filenameToId` reverse lookup, later entries overwriting earlier
ones with the same base filename. -/
def buildFilenameToId (imageUrls : List (String × String)) : List (String × String) :=
  imageUrls.foldl (fun acc p => setKey acc (baseFilename p.2) p.1) []

/-- Lines 56-63: resolve `(mappingMode, mappedOptionName, mappingTable)`
from the parsed mapping value.  `mapping.optionName || null` can only
furnish a usable name when it is a non-empty string (any other truthy
value never matches an entry of `optionNames`, which is the same outcome
as `none` here). -/
def resolveMappingConfig (mapping : Js) : String × Option String × Js :=
  if isObjLike mapping && isOptionMode mapping then
    ("option",
     (match getField mapping "optionName" with
      | some (.str s) => if s = "" then none else some s
      | _ => none),
     (match getField mapping "mapping" with
      | some v => if jsTruthy v then v else Js.obj []
      | none => Js.obj []))
  else ("variant", none, mapping)

/-- A string-array mapping value (canonical shape); non-string members
are modelled as `""`, which the visibility decision can never match
since a falsy resolved image ID is rejected first. -/
def jsStringList : Js → List String
  | .arr l => l.map (fun x => match x with | .str s => s | _ => "")
  | _ => []

/-- The mapping table as an entry list (arrays enumerate with index keys,
as `Object.entries` does). -/
def tableOf : Js → List (String × List String)
  | .obj e => e.map (fun p => (p.1, jsStringList p.2))
  | .arr l => l.enum.map (fun p => (toString p.1, jsStringList p.2))
  | _ => []

/-- The bootstrap: the guards of lines 35-64 in order (present mapping and
image table, parseable mapping, parseable-or-null settings, the `enabled`
gate, a usable mapping table), then `init`'s initial filter application.
The returned flag is `true` exactly when `init` runs, i.e. when the
variant-change listeners get installed. -/
def boot (parse : String → Option Js) (cfg : BootConfig) (currentVariantId : String)
    (st : PageState) : PageState × Bool :=
  if !(jsTruthy cfg.mapping) || !(jsTruthy cfg.imageUrls) then (st, false)
  else
    match (match cfg.mapping with | .str s => parse s | j => some j) with
    | none => (st, false)
    | some mapping =>
      if !(jsTruthy ((getFieldNN
          (match cfg.settings with | .str s => (parse s).getD .null | j => j)
          "enabled").getD (.bool true))) then (st, false)
      else
        if !(jsTruthy (resolveMappingConfig mapping).2.2
            && isObjLike (resolveMappingConfig mapping).2.2) then (st, false)
        else
          if (if cfg.initialVariantId ≠ "" then cfg.initialVariantId
              else currentVariantId) = "" then (st, true)
          else
            (filterGallery
              { mappingMode := (resolveMappingConfig mapping).1,
                mappedOptionName := (resolveMappingConfig mapping).2.1,
                mappingTable := tableOf (resolveMappingConfig mapping).2.2,
                optionNames := cfg.optionNames,
                variantOptions := cfg.variantOptions,
                filenameToId := buildFilenameToId (urlEntries cfg.imageUrls),
                hideUnassigned := jsTruthy ((getFieldNN
                  (match cfg.settings with | .str s => (parse s).getD .null | j => j)
                  "hideUnassignedImages").getD (.bool false)) }
              st
              (if cfg.initialVariantId ≠ "" then cfg.initialVariantId
               else currentVariantId),
             true)

/-! ### Admin assignment page mapping updates (src/unnamed/part_000)

The image-tile click handler and the "Select all" action of
`AssignImagesPage`, as pure updates of the in-memory mapping state. -/

/-- The image-tile click: toggle `imageId` on the active option value;
when shared images are disallowed and this is an addition, strip the
image from every other value's list. -/
def toggleImage (allowSharedImages : Bool) (prev : List (String × List String))
    (activeOptionValue imageId : String) : List (String × List String) :=
  if !allowSharedImages
      && !(jsIncludes ((lookupKey prev activeOptionValue).getD []) imageId) then
    (setKey prev activeOptionValue
        (if jsIncludes ((lookupKey prev activeOptionValue).getD []) imageId then
          ((lookupKey prev activeOptionValue).getD []).filter (fun id => id ≠ imageId)
         else ((lookupKey prev activeOptionValue).getD []) ++ [imageId])).map
      (fun p =>
        if p.1 = activeOptionValue then p
        else (p.1, p.2.filter (fun id => id ≠ imageId)))
  else
    setKey prev activeOptionValue
      (if jsIncludes ((lookupKey prev activeOptionValue).getD []) imageId then
        ((lookupKey prev activeOptionValue).getD []).filter (fun id => id ≠ imageId)
       else ((lookupKey prev activeOptionValue).getD []) ++ [imageId])

/-- The "Select all" action: assign every product image ID to the active
value; when shared images are disallowed, first strip all of them from
every other value's list. -/
def selectAllImages (allowSharedImages : Bool) (prev : List (String × List String))
    (activeOptionValue : String) (allIds : List String) : List (String × List String) :=
  if !allowSharedImages then
    setKey
      (prev.map (fun p =>
        if p.1 = activeOptionValue then p
        else (p.1, p.2.filter (fun id => !(jsIncludes allIds id)))))
      activeOptionValue allIds
  else setKey prev activeOptionValue allIds

/-! ### Specification-side definitions and invariant predicates -/

/-- A parse oracle under which every string fails to parse (used to
instantiate the abstract `JSON.parse` in concrete witnesses). -/
def noParse : String → Option Js := fun _ => none

/-- Modelled from the spec (§4.1): the input seen by the settings
normalizer — string inputs are parsed as JSON with parse failure giving
an empty object, null gives an empty object, anything else passes
through. -/
def settingsInputSpec (parse : String → Option Js) (raw : Js) : Js :=
  match raw with
  | .str s => (parse s).getD (.obj [])
  | .null => .obj []
  | j => j

/-- Modelled from the spec (§4.1): accept a field value only if it is
exactly boolean-typed, else substitute the default. -/
def settingsFieldSpec (input : Js) (key : String) (dflt : Bool) : Bool :=
  match getField input key with
  | some (.bool b) => b
  | _ => dflt

/-- Modelled from the spec (§4.1, §3): the fully-populated settings
record with per-field boolean acceptance and defaults `true, true, false`. -/
def normalizeSettingsSpec (parse : String → Option Js) (raw : Js) : Settings :=
  let input := settingsInputSpec parse raw
  { enabled := settingsFieldSpec input "enabled" true,
    allowSharedImages := settingsFieldSpec input "allowSharedImages" true,
    hideUnassignedImages := settingsFieldSpec input "hideUnassignedImages" false }

/-- The normalizer output invariant for one mapping entry: non-empty key,
non-empty de-duplicated image list of already-normalized IDs, each inside
the valid image set when one is in force. -/
def GoodEntry (validImageSet : Option (List String)) (p : String × List String) : Prop :=
  p.1 ≠ "" ∧ p.2 ≠ [] ∧ p.2.Nodup ∧
    ∀ i ∈ p.2, i ≠ "" ∧ toNumericId (Js.str i) = i ∧
      ∀ s, validImageSet = some s → jsIncludes s i = true

/-- Distinctness of the keys of an entry list (every real JS object
satisfies it). -/
def KeysNodup {α : Type} (m : List (String × α)) : Prop :=
  (m.map Prod.fst).Nodup

/-! ### Basic lemmas: inclusion, entry lists, de-duplication -/

theorem jsIncludes_iff_mem {l : List String} {x : String} :
    jsIncludes l x = true ↔ x ∈ l := by
  simp [jsIncludes, List.any_eq_true]

theorem containsKey_iff {α : Type} {m : List (String × α)} {k : String} :
    containsKey m k = true ↔ k ∈ m.map Prod.fst := by
  simp [containsKey, List.any_eq_true, List.mem_map]

theorem mem_setKey {α : Type} {m : List (String × α)} {k : String} {v : α}
    {p : String × α} (hp : p ∈ setKey m k v) : p = (k, v) ∨ p ∈ m := by
  unfold setKey at hp
  split at hp
  · rcases List.mem_map.mp hp with ⟨q, hq, hqe⟩
    by_cases h : q.1 = k
    · rw [if_pos h] at hqe; exact .inl hqe.symm
    · rw [if_neg h] at hqe; exact .inr (hqe ▸ hq)
  · rcases List.mem_append.mp hp with h | h
    · exact .inr h
    · exact .inl (by simpa using h)

theorem setKey_of_not_contains {α : Type} {m : List (String × α)} {k : String} {v : α}
    (h : containsKey m k = false) : setKey m k v = m ++ [(k, v)] := by
  unfold setKey
  simp [h]

theorem lookupKey_map_replace {α : Type} {m : List (String × α)} {k : String} {v : α}
    (h : containsKey m k = true) :
    lookupKey (m.map (fun p => if p.1 = k then (k, v) else p)) k = some v := by
  induction m with
  | nil => simp [containsKey] at h
  | cons p rest ih =>
    by_cases hk : p.1 = k
    · simp [lookupKey, hk]
    · simp only [List.map_cons, if_neg hk, lookupKey]
      apply ih
      simpa [containsKey, hk] using h

theorem lookupKey_append_single {α : Type} {m : List (String × α)} {k : String} {v : α}
    (h : containsKey m k = false) : lookupKey (m ++ [(k, v)]) k = some v := by
  induction m with
  | nil => simp [lookupKey]
  | cons p rest ih =>
    simp only [containsKey, List.any_cons, Bool.or_eq_false_iff] at h
    simp only [List.cons_append, lookupKey]
    rw [if_neg (by simpa using h.1)]
    exact ih (by simpa [containsKey] using h.2)

theorem lookupKey_setKey_self {α : Type} (m : List (String × α)) (k : String) (v : α) :
    lookupKey (setKey m k v) k = some v := by
  unfold setKey
  split
  · exact lookupKey_map_replace (by assumption)
  · exact lookupKey_append_single (by rename_i h; simpa using h)

theorem lookupKey_eq_some_mem {α : Type} {m : List (String × α)} {k : String} {v : α}
    (h : lookupKey m k = some v) : (k, v) ∈ m := by
  induction m with
  | nil => simp [lookupKey] at h
  | cons p rest ih =>
    simp only [lookupKey] at h
    split at h
    · rename_i hk
      injection h with h2
      obtain ⟨a, b⟩ := p
      simp only at hk
      subst hk; subst h2
      exact List.mem_cons_self _ _
    · exact List.mem_cons_of_mem _ (ih h)

theorem mem_jsDedupGo {a : String} :
    ∀ (l seen : List String), a ∈ jsDedupGo seen l ↔ (a ∈ l ∧ a ∉ seen) := by
  intro l
  induction l with
  | nil =>
    intro seen
    simp [jsDedupGo]
  | cons x xs ih =>
    intro seen
    by_cases hin : jsIncludes seen x = true
    · simp only [jsDedupGo, if_pos hin]
      rw [ih seen]
      have hxseen : x ∈ seen := jsIncludes_iff_mem.mp hin
      constructor
      · rintro ⟨ha, hns⟩
        exact ⟨List.mem_cons_of_mem _ ha, hns⟩
      · rintro ⟨ha, hns⟩
        rcases List.mem_cons.mp ha with rfl | ha2
        · exact absurd hxseen hns
        · exact ⟨ha2, hns⟩
    · simp only [jsDedupGo, if_neg hin]
      have hxseen : x ∉ seen := fun hx => hin (jsIncludes_iff_mem.mpr hx)
      rw [List.mem_cons, ih (seen ++ [x])]
      constructor
      · rintro (rfl | ⟨ha, hns⟩)
        · exact ⟨List.mem_cons_self _ _, hxseen⟩
        · exact ⟨List.mem_cons_of_mem _ ha, fun hs => hns (List.mem_append_left _ hs)⟩
      · rintro ⟨ha, hns⟩
        by_cases hax : a = x
        · exact .inl hax
        · right
          rcases List.mem_cons.mp ha with rfl | ha2
          · exact absurd rfl hax
          · refine ⟨ha2, fun hs => ?_⟩
            rcases List.mem_append.mp hs with h1 | h1
            · exact hns h1
            · exact hax (by simpa using h1)

theorem mem_jsDedup {l : List String} {a : String} : a ∈ jsDedup l ↔ a ∈ l := by
  unfold jsDedup
  rw [mem_jsDedupGo]
  simp

theorem nodup_jsDedupGo : ∀ (l seen : List String), (jsDedupGo seen l).Nodup := by
  intro l
  induction l with
  | nil =>
    intro seen
    simp [jsDedupGo]
  | cons x xs ih =>
    intro seen
    by_cases hin : jsIncludes seen x = true
    · simp only [jsDedupGo, if_pos hin]
      exact ih seen
    · simp only [jsDedupGo, if_neg hin]
      refine List.nodup_cons.mpr ⟨?_, ih _⟩
      intro hx
      rcases (mem_jsDedupGo _ _).mp hx with ⟨_, hns⟩
      exact hns (List.mem_append_right _ (by simp))

theorem nodup_jsDedup (l : List String) : (jsDedup l).Nodup :=
  nodup_jsDedupGo l []

theorem jsDedupGo_eq_self :
    ∀ (l seen : List String), l.Nodup → (∀ a ∈ l, a ∉ seen) →
      jsDedupGo seen l = l := by
  intro l
  induction l with
  | nil =>
    intro seen _ _
    rfl
  | cons x xs ih =>
    intro seen hnd hdisj
    have hxs : x ∉ seen := hdisj x (List.mem_cons_self _ _)
    have hcond : ¬(jsIncludes seen x = true) :=
      fun h => hxs (jsIncludes_iff_mem.mp h)
    rcases List.nodup_cons.mp hnd with ⟨hxxs, hnd2⟩
    have hdisj2 : ∀ a ∈ xs, a ∉ seen ++ [x] := by
      intro a ha hs
      rcases List.mem_append.mp hs with h1 | h1
      · exact hdisj a (List.mem_cons_of_mem _ ha) h1
      · have hax : a = x := by simpa using h1
        subst hax
        exact hxxs ha
    simp only [jsDedupGo, if_neg hcond, ih (seen ++ [x]) hnd2 hdisj2]

theorem jsDedup_eq_self {l : List String} (h : l.Nodup) : jsDedup l = l :=
  jsDedupGo_eq_self l [] h (by simp)

theorem jsDedup_ne_nil {l : List String} (h : l ≠ []) : jsDedup l ≠ [] := by
  cases l with
  | nil => exact absurd rfl h
  | cons x xs =>
    unfold jsDedup
    simp [jsDedupGo, jsIncludes]

/-! ### Split and identity-key lemmas -/

theorem splitOnChar_ne_nil (sep : Char) (cs : List Char) : splitOnChar sep cs ≠ [] := by
  induction cs with
  | nil => simp [splitOnChar]
  | cons c rest ih =>
    simp only [splitOnChar]
    split
    · simp
    · cases h : splitOnChar sep rest with
      | nil => exact absurd h ih
      | cons hd tl => simp

theorem getLastD_mem {α : Type} : ∀ (l : List α) (d : α), l ≠ [] → l.getLastD d ∈ l
  | [], _, h => absurd rfl h
  | [a], d, _ => by simp [List.getLastD]
  | a :: b :: t, d, _ => by
    rw [List.getLastD_cons]
    exact List.mem_cons_of_mem _ (getLastD_mem (b :: t) a (by simp))

theorem mem_splitOnChar_not_mem (sep : Char) :
    ∀ cs, ∀ x ∈ splitOnChar sep cs, sep ∉ x := by
  intro cs
  induction cs with
  | nil =>
    intro x hx
    simp only [splitOnChar, List.mem_singleton] at hx
    subst hx; simp
  | cons c rest ih =>
    intro x hx
    by_cases hc : c = sep
    · simp only [splitOnChar, if_pos hc] at hx
      rcases List.mem_cons.mp hx with rfl | hx2
      · simp
      · exact ih x hx2
    · cases h : splitOnChar sep rest with
      | nil => exact absurd h (splitOnChar_ne_nil sep rest)
      | cons hd tl =>
        simp only [splitOnChar, if_neg hc, h] at hx
        rcases List.mem_cons.mp hx with rfl | hx2
        · intro hmem
          rcases List.mem_cons.mp hmem with rfl | hmem2
          · exact hc rfl
          · exact ih hd (by rw [h]; exact List.mem_cons_self hd tl) hmem2
        · exact ih x (by rw [h]; exact List.mem_cons_of_mem hd hx2)

theorem sep_not_mem_last_part (sep : Char) (cs : List Char) :
    sep ∉ (splitOnChar sep cs).getLastD [] :=
  mem_splitOnChar_not_mem sep cs _ (getLastD_mem _ [] (splitOnChar_ne_nil sep cs))

theorem splitOnChar_of_not_mem {sep : Char} {cs : List Char} (h : sep ∉ cs) :
    splitOnChar sep cs = [cs] := by
  induction cs with
  | nil => rfl
  | cons c rest ih =>
    simp only [List.mem_cons] at h
    push_neg at h
    have hcne : ¬(c = sep) := fun hc => h.1 hc.symm
    simp only [splitOnChar, ih h.2, if_neg hcne]

theorem splitOnChar_append_cons (sep : Char) (xs ys : List Char) :
    splitOnChar sep (xs ++ sep :: ys) = splitOnChar sep xs ++ splitOnChar sep ys := by
  induction xs with
  | nil => simp [splitOnChar]
  | cons c xs ih =>
    by_cases hc : c = sep
    · simp [List.cons_append, splitOnChar, hc, ih]
    · cases h : splitOnChar sep xs with
      | nil => exact absurd h (splitOnChar_ne_nil sep xs)
      | cons hd tl =>
        rw [List.cons_append]
        simp only [splitOnChar, if_neg hc]
        rw [ih, h]
        rfl

theorem string_mk_data (s : String) : String.mk s.data = s := by
  cases s; rfl

theorem lastSegment_fix {s : String} (h : '/' ∉ s.data) : lastSegment '/' s = s := by
  unfold lastSegment
  rw [splitOnChar_of_not_mem h]
  simp [List.getLastD, string_mk_data s]

theorem not_mem_data_lastSegment (sep : Char) (s : String) :
    sep ∉ (lastSegment sep s).data := by
  unfold lastSegment
  exact sep_not_mem_last_part sep s.data

theorem toNumericId_idem (g : Js) :
    toNumericId (Js.str (toNumericId g)) = toNumericId g := by
  unfold toNumericId
  by_cases h : jsTruthy g = true
  · rw [if_pos h]
    by_cases h2 : lastSegment '/' (jsToString g) = ""
    · rw [h2]
      simp [jsTruthy]
    · have ht : jsTruthy (Js.str (lastSegment '/' (jsToString g))) = true := by
        simp [jsTruthy, h2]
      rw [if_pos ht]
      have hstr : jsToString (Js.str (lastSegment '/' (jsToString g)))
          = lastSegment '/' (jsToString g) := by
        simp [jsToString]
      rw [hstr]
      exact lastSegment_fix (not_mem_data_lastSegment '/' _)
  · rw [if_neg h]
    simp [jsTruthy]

/-! ### Normalizer invariants -/

theorem mem_mkImageIds {candidate : List Js} {vs : Option (List String)} {i : String}
    (hi : i ∈ mkImageIds candidate vs) :
    i ≠ "" ∧ toNumericId (Js.str i) = i ∧ ∀ s, vs = some s → jsIncludes s i = true := by
  unfold mkImageIds at hi
  rcases List.mem_filter.mp hi with ⟨hded, hvs⟩
  rcases List.mem_filter.mp (mem_jsDedup.mp hded) with ⟨hmap, hne⟩
  rcases List.mem_map.mp hmap with ⟨x, _, rfl⟩
  refine ⟨by simpa using hne, toNumericId_idem x, ?_⟩
  intro s hs
  subst hs
  simpa using hvs

theorem nodup_mkImageIds (candidate : List Js) (vs : Option (List String)) :
    (mkImageIds candidate vs).Nodup :=
  List.Nodup.filter _ (nodup_jsDedup _)

theorem mkImageIds_fixpoint {l : List String} {vs : Option (List String)}
    (hnd : l.Nodup)
    (hgood : ∀ i ∈ l, i ≠ "" ∧ toNumericId (Js.str i) = i ∧
      ∀ s, vs = some s → jsIncludes s i = true) :
    mkImageIds (l.map Js.str) vs = l := by
  unfold mkImageIds
  have h1 : (l.map Js.str).map toNumericId = l := by
    rw [List.map_map]
    have hc : ∀ i ∈ l, (toNumericId ∘ Js.str) i = id i := fun i hi => (hgood i hi).2.1
    rw [List.map_congr_left hc, List.map_id]
  rw [h1]
  have h2 : l.filter (fun i => i ≠ "") = l :=
    List.filter_eq_self.mpr (fun a ha => by simpa using (hgood a ha).1)
  rw [h2, jsDedup_eq_self hnd]
  apply List.filter_eq_self.mpr
  intro a ha
  cases hv : vs with
  | none => simp
  | some s => simpa using (hgood a ha).2.2 s hv

theorem keysNodup_setKey {α : Type} {m : List (String × α)} {k : String} {v : α}
    (h : KeysNodup m) : KeysNodup (setKey m k v) := by
  unfold setKey
  split
  · have heq : (m.map (fun p => if p.1 = k then (k, v) else p)).map Prod.fst
        = m.map Prod.fst := by
      rw [List.map_map]
      apply List.map_congr_left
      intro p _
      by_cases h1 : p.1 = k <;> simp [h1]
    unfold KeysNodup
    rw [heq]
    exact h
  · rename_i hnc
    unfold KeysNodup at h ⊢
    rw [List.map_append]
    refine List.nodup_append.mpr ⟨h, by simp, ?_⟩
    intro a ha
    simp only [List.map_cons, List.map_nil, List.mem_singleton]
    intro hak
    subst hak
    exact hnc (containsKey_iff.mpr ha)

theorem nomLoop_good {vs is : Option (List String)} :
    ∀ (entries : List (String × Js)) (acc : List (String × List String)),
      (∀ p ∈ acc, GoodEntry is p ∧ ∀ s, vs = some s → jsIncludes s p.1 = true) →
      ∀ p ∈ nomLoop vs is entries acc,
        GoodEntry is p ∧ ∀ s, vs = some s → jsIncludes s p.1 = true := by
  intro entries
  induction entries with
  | nil =>
    intro acc hacc p hp
    exact hacc p hp
  | cons e rest ih =>
    intro acc hacc p hp
    obtain ⟨k, v⟩ := e
    simp only [nomLoop] at hp
    split at hp
    · exact ih acc hacc p hp
    · split at hp
      · exact ih acc hacc p hp
      · split at hp
        · exact ih acc hacc p hp
        · rename_i hk hdom hne
          refine ih _ ?_ p hp
          intro q hq
          rcases mem_setKey hq with rfl | hqm
          · constructor
            · refine ⟨hk, hne, nodup_mkImageIds _ _, ?_⟩
              intro i hi
              exact mem_mkImageIds hi
            · intro s hs
              subst hs
              simp only [Bool.not_eq_true'] at hdom
              simpa using hdom
          · exact hacc q hqm

theorem nmLoop_good {vvs is : Option (List String)} :
    ∀ (entries : List (String × Js)) (acc : List (String × List String)),
      (∀ p ∈ acc, GoodEntry is p) →
      ∀ p ∈ nmLoop vvs is entries acc, GoodEntry is p := by
  intro entries
  induction entries with
  | nil =>
    intro acc hacc p hp
    exact hacc p hp
  | cons e rest ih =>
    intro acc hacc p hp
    obtain ⟨k, v⟩ := e
    simp only [nmLoop] at hp
    split at hp
    · exact ih acc hacc p hp
    · split at hp
      · exact ih acc hacc p hp
      · split at hp
        · exact ih acc hacc p hp
        · rename_i hk _ hne
          refine ih _ ?_ p hp
          intro q hq
          rcases mem_setKey hq with rfl | hqm
          · refine ⟨hk, hne, nodup_mkImageIds _ _, ?_⟩
            intro i hi
            exact mem_mkImageIds hi
          · exact hacc q hqm

theorem legacyLoop_good {is : Option (List String)}
    {bv : List (String × Option String)} :
    ∀ (src : List (String × List String)) (acc : List (String × List String)),
      (∀ p ∈ src, GoodEntry is p) →
      (∀ p ∈ acc, GoodEntry is p) →
      ∀ p ∈ legacyLoop bv src acc, GoodEntry is p := by
  intro src
  induction src with
  | nil =>
    intro acc _ hacc p hp
    exact hacc p hp
  | cons e rest ih =>
    intro acc hsrc hacc p hp
    obtain ⟨variantId, imageList⟩ := e
    have hsrcrest : ∀ p ∈ rest, GoodEntry is p :=
      fun q hq => hsrc q (List.mem_cons_of_mem _ hq)
    have hegood : GoodEntry is (variantId, imageList) := hsrc _ (List.mem_cons_self _ _)
    simp only [legacyLoop] at hp
    split at hp
    · rename_i v hv
      split at hp
      · exact ih acc hsrcrest hacc p hp
      · rename_i hvne
        refine ih _ hsrcrest ?_ p hp
        intro q hq
        rcases mem_setKey hq with rfl | hqm
        · refine ⟨hvne, ?_, nodup_jsDedup _, ?_⟩
          · rcases hegood.2.1 with h2
            have : imageList ≠ [] := h2
            obtain ⟨i, hi⟩ := List.exists_mem_of_ne_nil _ this
            intro hmerged
            simp only at hmerged
            have : i ∈ jsDedup (((lookupKey acc v).getD []) ++ imageList) :=
              mem_jsDedup.mpr (List.mem_append_right _ hi)
            rw [hmerged] at this
            exact absurd this (List.not_mem_nil i)
          · intro i hi
            rcases List.mem_append.mp (mem_jsDedup.mp hi) with hl | hr
            · cases hacc' : lookupKey acc v with
              | none => rw [hacc'] at hl; simp at hl
              | some u =>
                rw [hacc'] at hl
                simp only [Option.getD_some] at hl
                exact ((hacc _ (lookupKey_eq_some_mem hacc')).2.2.2) i hl
            · exact hegood.2.2.2 i hr
        · exact hacc q hqm
    · exact ih acc hsrcrest hacc p hp

theorem keysNodup_nomLoop {vs is : Option (List String)} :
    ∀ (entries : List (String × Js)) (acc : List (String × List String)),
      KeysNodup acc → KeysNodup (nomLoop vs is entries acc) := by
  intro entries
  induction entries with
  | nil => intro acc h; exact h
  | cons e rest ih =>
    intro acc h
    obtain ⟨k, v⟩ := e
    simp only [nomLoop]
    split
    · exact ih acc h
    · split
      · exact ih acc h
      · split
        · exact ih acc h
        · exact ih _ (keysNodup_setKey h)

theorem keysNodup_nmLoop {vvs is : Option (List String)} :
    ∀ (entries : List (String × Js)) (acc : List (String × List String)),
      KeysNodup acc → KeysNodup (nmLoop vvs is entries acc) := by
  intro entries
  induction entries with
  | nil => intro acc h; exact h
  | cons e rest ih =>
    intro acc h
    obtain ⟨k, v⟩ := e
    simp only [nmLoop]
    split
    · exact ih acc h
    · split
      · exact ih acc h
      · split
        · exact ih acc h
        · exact ih _ (keysNodup_setKey h)

theorem keysNodup_legacyLoop {bv : List (String × Option String)} :
    ∀ (src : List (String × List String)) (acc : List (String × List String)),
      KeysNodup acc → KeysNodup (legacyLoop bv src acc) := by
  intro src
  induction src with
  | nil => intro acc h; exact h
  | cons e rest ih =>
    intro acc h
    obtain ⟨variantId, imageList⟩ := e
    simp only [legacyLoop]
    split
    · split
      · exact ih acc h
      · exact ih _ (keysNodup_setKey h)
    · exact ih acc h

theorem nomLoop_rebuild {vs is : Option (List String)} :
    ∀ (tbl acc : List (String × List String)),
      (∀ p ∈ tbl, GoodEntry is p) →
      (∀ p ∈ tbl, ∀ s, vs = some s → jsIncludes s p.1 = true) →
      KeysNodup (acc ++ tbl) →
      nomLoop vs is (tbl.map (fun p => (p.1, Js.arr (p.2.map Js.str)))) acc = acc ++ tbl := by
  intro tbl
  induction tbl with
  | nil =>
    intro acc _ _ _
    simp [nomLoop]
  | cons p rest ih =>
    intro acc hgood hdom hnd
    obtain ⟨k, l⟩ := p
    obtain ⟨hk, hlne, hlnd, hmem⟩ := hgood _ (List.mem_cons_self _ _)
    simp only at hk hlne hlnd hmem
    have hd := hdom _ (List.mem_cons_self (k, l) rest)
    simp only at hd
    have hfix : mkImageIds (l.map Js.str) is = l := mkImageIds_fixpoint hlnd hmem
    have hcont : containsKey acc k = false := by
      unfold KeysNodup at hnd
      rw [List.map_append] at hnd
      rcases List.nodup_append.mp hnd with ⟨_, _, hdisj⟩
      by_contra hc
      rw [Bool.not_eq_false] at hc
      exact hdisj (containsKey_iff.mp hc) (by simp)
    rw [List.map_cons]
    simp only [nomLoop]
    rw [if_neg hk]
    split
    · rename_i hcond
      exfalso
      clear ih hdom hgood hnd
      revert hcond
      cases vs with
      | none => simp
      | some s =>
        intro hcond
        have hc2 : (!jsIncludes s k) = true := hcond
        rw [hd s rfl] at hc2
        simp at hc2
    · simp only [candidateImagesOf, hfix]
      rw [if_neg hlne, setKey_of_not_contains hcont]
      rw [ih (acc ++ [(k, l)])
        (fun q hq => hgood q (List.mem_cons_of_mem _ hq))
        (fun q hq => hdom q (List.mem_cons_of_mem _ hq))
        (by unfold KeysNodup at hnd ⊢; simpa using hnd)]
      simp

theorem normalizeOptionMapping_good (parse : String → Option Js) (raw : Js)
    (vals : List String) (imgs : List Js) :
    ∀ p ∈ normalizeOptionMapping parse raw vals imgs,
      GoodEntry (if imgs.isEmpty then none else some (imgs.map toNumericId)) p ∧
      ∀ s, (if vals.isEmpty then none else some vals) = some s →
        jsIncludes s p.1 = true := by
  intro p hp
  simp only [normalizeOptionMapping] at hp
  split at hp
  · exact nomLoop_good _ _ (by simp) p hp
  · simp at hp

theorem normalizeMapping_good (parse : String → Option Js) (raw : Js)
    (vvs : List Js) (imgs : List Js) :
    ∀ p ∈ normalizeMapping parse raw vvs imgs,
      GoodEntry (if imgs.isEmpty then none else some (imgs.map toNumericId)) p := by
  intro p hp
  simp only [normalizeMapping] at hp
  split at hp
  · exact nmLoop_good _ _ (by simp) p hp
  · simp at hp

theorem keysNodup_normalizeOptionMapping (parse : String → Option Js) (raw : Js)
    (vals : List String) (imgs : List Js) :
    KeysNodup (normalizeOptionMapping parse raw vals imgs) := by
  simp only [normalizeOptionMapping]
  split
  · exact keysNodup_nomLoop _ _ (by simp [KeysNodup])
  · simp [KeysNodup]

theorem normalizeProductMapping_mode (parse : String → Option Js) (raw : Js)
    (opts : List ProductOption) (variants : List Variant) (imgs : List Js) :
    (normalizeProductMapping parse raw opts variants imgs).mode = "option" := by
  simp only [normalizeProductMapping]
  split <;> rfl

theorem resolveOptionName_fix {opts : List ProductOption} {n : String}
    (h : opts.any (fun o => o.name = n) = true ∨ n = fallbackOptionName opts) :
    resolveOptionName opts (some (Js.str n)) = n := by
  simp only [resolveOptionName]
  rcases h with h | h
  · rw [if_pos h]
  · by_cases ha : opts.any (fun o => o.name = n) = true
    · rw [if_pos ha]
    · rw [if_neg ha]
      exact h.symm

theorem normalizeProductMapping_optionName_cases (parse : String → Option Js) (raw : Js)
    (opts : List ProductOption) (variants : List Variant) (imgs : List Js) :
    opts.any (fun o =>
        o.name = (normalizeProductMapping parse raw opts variants imgs).optionName) = true ∨
    (normalizeProductMapping parse raw opts variants imgs).optionName
      = fallbackOptionName opts := by
  simp only [normalizeProductMapping]
  split
  · simp only
    generalize getField (safeParseJson parse raw (Js.obj [])) "optionName" = rn
    unfold resolveOptionName
    split
    · split
      · rename_i hs
        exact .inl hs
      · exact .inr rfl
    · exact .inr rfl
  · exact .inr rfl

theorem normalizeProductMapping_good (parse : String → Option Js) (raw : Js)
    (opts : List ProductOption) (variants : List Variant) (imgs : List Js) :
    ∀ p ∈ (normalizeProductMapping parse raw opts variants imgs).mapping,
      GoodEntry (if imgs.isEmpty then none else some (imgs.map toNumericId)) p := by
  intro p hp
  simp only [normalizeProductMapping] at hp
  split at hp
  · simp only at hp
    exact (normalizeOptionMapping_good _ _ _ _ p hp).1
  · simp only at hp
    exact legacyLoop_good _ _ (normalizeMapping_good _ _ _ _) (by simp) p hp

theorem normalizeProductMapping_keysNodup (parse : String → Option Js) (raw : Js)
    (opts : List ProductOption) (variants : List Variant) (imgs : List Js) :
    KeysNodup (normalizeProductMapping parse raw opts variants imgs).mapping := by
  simp only [normalizeProductMapping]
  split
  · simp only
    exact keysNodup_normalizeOptionMapping _ _ _ _
  · simp only
    exact keysNodup_legacyLoop _ _ (by simp [KeysNodup])

theorem normalizeOptionMapping_rebuild (parse : String → Option Js)
    (tbl : List (String × List String)) (vals : List String) (imgs : List Js)
    (hgood : ∀ p ∈ tbl, GoodEntry (if imgs.isEmpty then none else some (imgs.map toNumericId)) p)
    (hnd : KeysNodup tbl)
    (hdom : ∀ p ∈ tbl, vals = [] ∨ p.1 ∈ vals)
    (hnk : containsKey tbl "mapping" = false) :
    normalizeOptionMapping parse
      (Js.obj (tbl.map (fun p => (p.1, Js.arr (p.2.map Js.str))))) vals imgs = tbl := by
  have hfind : List.find? (fun p => p.1 = "mapping")
      (tbl.map (fun p => (p.1, Js.arr (p.2.map Js.str)))) = none := by
    rw [List.find?_eq_none]
    intro p hp
    rcases List.mem_map.mp hp with ⟨q, hq, rfl⟩
    simp only [decide_eq_true_eq]
    intro hqk
    rw [← Bool.not_eq_true] at hnk
    exact hnk (containsKey_iff.mpr (List.mem_map.mpr ⟨q, hq, hqk⟩))
  have hsf : getField (Js.obj (tbl.map (fun p => (p.1, Js.arr (p.2.map Js.str))))) "mapping"
      = none := by
    simp only [getField, hfind, Option.map_none']
  have hsrc : sourceOf (safeParseJson parse
      (Js.obj (tbl.map (fun p => (p.1, Js.arr (p.2.map Js.str))))) (Js.obj []))
      = Js.obj (tbl.map (fun p => (p.1, Js.arr (p.2.map Js.str)))) := by
    show sourceOf (Js.obj (tbl.map (fun p => (p.1, Js.arr (p.2.map Js.str))))) = _
    simp [sourceOf, hsf]
  simp only [normalizeOptionMapping, hsrc]
  have := @nomLoop_rebuild
    (if vals.isEmpty then none else some vals)
    (if imgs.isEmpty then none else some (imgs.map toNumericId))
    tbl [] hgood ?_ (by simpa [KeysNodup] using hnd)
  · simpa using this
  · intro p hp s hs
    rcases hdom p hp with h | h
    · rw [if_pos (by simp [h])] at hs
      exact absurd hs (by simp)
    · have : s = vals := by
        by_cases he : vals.isEmpty
        · rw [if_pos he] at hs; exact absurd hs (by simp)
        · rw [if_neg he] at hs; exact (Option.some.inj hs).symm
      subst this
      exact jsIncludes_iff_mem.mpr h

theorem renormalize_canonical (parse : String → Option Js) (c : CanonicalMapping)
    (opts : List ProductOption) (variants : List Variant) (imgs : List Js)
    (hmode : c.mode = "option")
    (hcases : opts.any (fun o => o.name = c.optionName) = true
      ∨ c.optionName = fallbackOptionName opts)
    (hgood : ∀ p ∈ c.mapping,
      GoodEntry (if imgs.isEmpty then none else some (imgs.map toNumericId)) p)
    (hnd : KeysNodup c.mapping)
    (hdom : ∀ p ∈ c.mapping, optionValuesOf opts c.optionName = []
      ∨ p.1 ∈ optionValuesOf opts c.optionName)
    (hnk : containsKey c.mapping "mapping" = false) :
    normalizeProductMapping parse (canonicalToJs c) opts variants imgs = c := by
  obtain ⟨m, n, tbl⟩ := c
  simp only at hmode hcases hgood hnd hdom hnk
  subst hmode
  have hsp : safeParseJson parse (canonicalToJs ⟨"option", n, tbl⟩) (Js.obj [])
      = canonicalToJs ⟨"option", n, tbl⟩ := rfl
  have hmode2 : isOptionMode (canonicalToJs ⟨"option", n, tbl⟩) = true := by
    simp [isOptionMode, canonicalToJs, getField, List.find?]
  have hname : getField (canonicalToJs ⟨"option", n, tbl⟩) "optionName"
      = some (Js.str n) := by
    simp [canonicalToJs, getField, List.find?]
  have hmapf : getField (canonicalToJs ⟨"option", n, tbl⟩) "mapping"
      = some (Js.obj (tbl.map (fun p => (p.1, Js.arr (p.2.map Js.str))))) := by
    simp [canonicalToJs, getField, List.find?]
  have hrname : resolveOptionName opts
      (getField (canonicalToJs ⟨"option", n, tbl⟩) "optionName") = n := by
    rw [hname]
    exact resolveOptionName_fix hcases
  simp only [normalizeProductMapping, hsp, hmode2, if_true, hrname, hmapf]
  have hreb : normalizeOptionMapping parse
      (Js.obj (tbl.map (fun p => (p.1, Js.arr (p.2.map Js.str)))))
      (optionValuesOf opts n) imgs = tbl :=
    normalizeOptionMapping_rebuild parse tbl _ imgs hgood hnd hdom hnk
  rw [hreb]

/-! ### Claim theorems -/

/-- C3, counterexample to the claim as stated: with an empty valid
option-value domain the normalizer skips key validation entirely
(`validOptionValues.length ? new Set(...) : null`), so the key `Black`
survives although it belongs to no (empty) domain. -/
theorem c3_counterexample :
    normalizeOptionMapping noParse (Js.obj [("Black", Js.arr [Js.str "1"])]) [] [Js.str "1"]
      = [("Black", ["1"])] ∧ "Black" ∉ ([] : List String) := by
  constructor
  · decide
  · simp

/-- C3 (amended): when the valid option-value domain and the valid
image-ID domain are both non-empty, every key of the option-mapping
normalizer's output belongs to the option-value domain, every image ID in
every output entry is the normalized (`toNumericId`) form of a member of
the image-ID domain, and no output entry has an empty image list. -/
theorem c3_domain_filtering (parse : String → Option Js) (raw : Js)
    (vals : List String) (imgs : List Js)
    (hvals : vals ≠ []) (himgs : imgs ≠ []) :
    ∀ p ∈ normalizeOptionMapping parse raw vals imgs,
      p.1 ∈ vals ∧ p.2 ≠ [] ∧ ∀ i ∈ p.2, i ∈ imgs.map toNumericId := by
  intro p hp
  have h := normalizeOptionMapping_good parse raw vals imgs p hp
  have hev : vals.isEmpty = false := by
    cases vals with
    | nil => exact absurd rfl hvals
    | cons a l => rfl
  have hei : imgs.isEmpty = false := by
    cases imgs with
    | nil => exact absurd rfl himgs
    | cons a l => rfl
  refine ⟨?_, h.1.2.1, ?_⟩
  · exact jsIncludes_iff_mem.mp (h.2 vals (by rw [hev]; rfl))
  · intro i hi2
    exact jsIncludes_iff_mem.mp ((h.1.2.2.2 i hi2).2.2 _ (by rw [hei]; rfl))

/-- C3 witness: a concrete run with non-empty domains, exercised at the
surviving entry. -/
theorem c3_domain_filtering_witness :
    (("Black", ["1"]) ∈ normalizeOptionMapping noParse
      (Js.obj [("Black", Js.arr [Js.str "1", Js.str "1"]), ("Stale", Js.arr [Js.str "1"])])
      ["Black", "Red"] [Js.str "1", Js.str "9"]) ∧
    ("Black" ∈ ["Black", "Red"] ∧ (["1"] : List String) ≠ [] ∧
      ∀ i ∈ (["1"] : List String), i ∈ [Js.str "1", Js.str "9"].map toNumericId) :=
  ⟨by decide,
   c3_domain_filtering noParse
      (Js.obj [("Black", Js.arr [Js.str "1", Js.str "1"]), ("Stale", Js.arr [Js.str "1"])])
      ["Black", "Red"] [Js.str "1", Js.str "9"]
      (by simp) (by simp) ("Black", ["1"]) (by decide)⟩

/-- C4, counterexample to the claim as stated: the legacy migration can
emit a mapping key (a variant's selected value, here `Black`) that is not
among the declared values of the target option (`Red` only); a second
normalization pass then filters that key away, so re-normalizing the
normalizer's own output is not the identity. -/
theorem c4_counterexample :
    normalizeProductMapping noParse
        (canonicalToJs (normalizeProductMapping noParse
          (Js.obj [("1", Js.arr [Js.str "5"])])
          [⟨"Color", ["Red"]⟩] [⟨Js.str "1", [("Color", "Black")]⟩] [Js.str "5"]))
        [⟨"Color", ["Red"]⟩] [⟨Js.str "1", [("Color", "Black")]⟩] [Js.str "5"]
      ≠ normalizeProductMapping noParse (Js.obj [("1", Js.arr [Js.str "5"])])
          [⟨"Color", ["Red"]⟩] [⟨Js.str "1", [("Color", "Black")]⟩] [Js.str "5"] := by
  decide

/-- C4 (amended): applying the product-mapping normalizer to its own
output yields a structurally identical result, provided every key of the
canonical mapping lies in the resolved option's declared value set
(whenever that set is non-empty) and no key is the literal string
`mapping` (which the backward-compatibility unwrapping would mistake for
a wrapper object). -/
theorem c4_idempotence (parse : String → Option Js) (raw : Js)
    (opts : List ProductOption) (variants : List Variant) (imgs : List Js)
    (H1 : ∀ p ∈ (normalizeProductMapping parse raw opts variants imgs).mapping,
      optionValuesOf opts (normalizeProductMapping parse raw opts variants imgs).optionName = []
      ∨ p.1 ∈ optionValuesOf opts (normalizeProductMapping parse raw opts variants imgs).optionName)
    (H2 : containsKey (normalizeProductMapping parse raw opts variants imgs).mapping
      "mapping" = false) :
    normalizeProductMapping parse
        (canonicalToJs (normalizeProductMapping parse raw opts variants imgs))
        opts variants imgs
      = normalizeProductMapping parse raw opts variants imgs :=
  renormalize_canonical parse _ opts variants imgs
    (normalizeProductMapping_mode parse raw opts variants imgs)
    (normalizeProductMapping_optionName_cases parse raw opts variants imgs)
    (normalizeProductMapping_good parse raw opts variants imgs)
    (normalizeProductMapping_keysNodup parse raw opts variants imgs)
    H1 H2

/-- C4 witness: a concrete current-format mapping whose re-normalization
is checked to be the identity through the theorem. -/
theorem c4_idempotence_witness :
    (∀ p ∈ (normalizeProductMapping noParse
        (Js.obj [("mode", Js.str "option"), ("optionName", Js.str "Color"),
          ("mapping", Js.obj [("Black", Js.arr [Js.str "7"])])])
        [⟨"Color", ["Black"]⟩] [] [Js.str "7"]).mapping,
      optionValuesOf [⟨"Color", ["Black"]⟩]
        (normalizeProductMapping noParse
          (Js.obj [("mode", Js.str "option"), ("optionName", Js.str "Color"),
            ("mapping", Js.obj [("Black", Js.arr [Js.str "7"])])])
          [⟨"Color", ["Black"]⟩] [] [Js.str "7"]).optionName = []
      ∨ p.1 ∈ optionValuesOf [⟨"Color", ["Black"]⟩]
        (normalizeProductMapping noParse
          (Js.obj [("mode", Js.str "option"), ("optionName", Js.str "Color"),
            ("mapping", Js.obj [("Black", Js.arr [Js.str "7"])])])
          [⟨"Color", ["Black"]⟩] [] [Js.str "7"]).optionName) ∧
    normalizeProductMapping noParse
        (canonicalToJs (normalizeProductMapping noParse
          (Js.obj [("mode", Js.str "option"), ("optionName", Js.str "Color"),
            ("mapping", Js.obj [("Black", Js.arr [Js.str "7"])])])
          [⟨"Color", ["Black"]⟩] [] [Js.str "7"]))
        [⟨"Color", ["Black"]⟩] [] [Js.str "7"]
      = normalizeProductMapping noParse
        (Js.obj [("mode", Js.str "option"), ("optionName", Js.str "Color"),
          ("mapping", Js.obj [("Black", Js.arr [Js.str "7"])])])
        [⟨"Color", ["Black"]⟩] [] [Js.str "7"] :=
  ⟨by decide,
   c4_idempotence noParse
    (Js.obj [("mode", Js.str "option"), ("optionName", Js.str "Color"),
      ("mapping", Js.obj [("Black", Js.arr [Js.str "7"])])])
    [⟨"Color", ["Black"]⟩] [] [Js.str "7"] (by decide) (by decide)⟩

/-- C6: the end-to-end legacy migration scenario — raw persisted value
mapping variant `1111` to image `2222`, one option `Color` with values
`Black`/`Red`, variant `1111` selecting `Color = Black`, image `2222`
valid — normalizes to exactly the canonical
`mode option / optionName Color / Black ↦ 2222` mapping. -/
theorem c6_legacy_migration_scenario :
    normalizeProductMapping noParse (Js.obj [("1111", Js.arr [Js.str "2222"])])
      [⟨"Color", ["Black", "Red"]⟩] [⟨Js.str "1111", [("Color", "Black")]⟩]
      [Js.str "2222"]
      = { mode := "option", optionName := "Color", mapping := [("Black", ["2222"])] } := by
  decide

/-- C7: for every input value — under any parse oracle failing on the
empty string, as `JSON.parse` does — the settings normalizer agrees with
the specification-side normalizer: each field equals the input field
exactly when boolean-typed and otherwise its default, without any
failure path. -/
theorem c7_settings_normalizer_total (parse : String → Option Js)
    (hp : parse "" = none) (raw : Js) :
    normalizeSettings parse raw = normalizeSettingsSpec parse raw := by
  unfold normalizeSettings normalizeSettingsSpec settingsInputSpec settingsFieldSpec
  cases raw with
  | null => rfl
  | str s =>
    by_cases h : s = ""
    · subst h
      simp [safeParseJson, hp, DEFAULT_SETTINGS]
    · simp [safeParseJson, h, DEFAULT_SETTINGS]
  | bool b => rfl
  | num n => rfl
  | arr l => rfl
  | obj e => rfl

/-- C7 witness: a malformed record with one boolean field keeps that
field and defaults the rest. -/
theorem c7_settings_normalizer_total_witness :
    noParse "" = none ∧
    normalizeSettings noParse
        (Js.obj [("enabled", Js.bool false), ("allowSharedImages", Js.str "yes")])
      = normalizeSettingsSpec noParse
        (Js.obj [("enabled", Js.bool false), ("allowSharedImages", Js.str "yes")]) :=
  ⟨rfl, c7_settings_normalizer_total noParse rfl
    (Js.obj [("enabled", Js.bool false), ("allowSharedImages", Js.str "yes")])⟩

/-- C1: fail-closed lookup — when the resolved mapping key of the
selected variant has no entry in the mapping table, one recomputation
pass hides every gallery element and every thumbnail element (inline
`display:none`, `aria-hidden`, and the `vi--hidden` class), touching the
same number of elements the page had. -/
theorem c1_fail_closed (ctx : FilterCtx) (st : PageState) (variantId : String)
    (h0 : variantId ≠ "")
    (h1 : lookupKey ctx.mappingTable (resolveMappingKey ctx variantId) = none) :
    ((filterGallery ctx st variantId).gallery.length = st.gallery.length ∧
      (filterGallery ctx st variantId).thumbs.length = st.thumbs.length) ∧
    (∀ el ∈ (filterGallery ctx st variantId).gallery,
      el.displayNone = true ∧ el.ariaHidden = true ∧ el.viHidden = true) ∧
    (∀ el ∈ (filterGallery ctx st variantId).thumbs,
      el.displayNone = true ∧ el.ariaHidden = true ∧ el.viHidden = true) := by
  have hfg : filterGallery ctx st variantId = showNone st := by
    unfold filterGallery
    rw [if_neg h0, h1]
  rw [hfg]
  unfold showNone
  refine ⟨⟨by simp, by simp⟩, ?_, ?_⟩
  all_goals
    intro el hel
    rcases List.mem_map.mp hel with ⟨e, _, rfl⟩
    simp [setVisible]

/-- C1 witness: a two-element page filtered for a variant with no table
entry ends fully hidden. -/
theorem c1_fail_closed_witness :
    (∀ el ∈ (filterGallery ⟨"variant", none, [("k", ["1"])], none, [], [("a.jpg", "7")], false⟩
        ⟨[⟨"a.jpg", false, false, false⟩], [⟨"b.jpg", false, false, false⟩]⟩ "v9").gallery,
      el.displayNone = true ∧ el.ariaHidden = true ∧ el.viHidden = true) ∧
    (∀ el ∈ (filterGallery ⟨"variant", none, [("k", ["1"])], none, [], [("a.jpg", "7")], false⟩
        ⟨[⟨"a.jpg", false, false, false⟩], [⟨"b.jpg", false, false, false⟩]⟩ "v9").thumbs,
      el.displayNone = true ∧ el.ariaHidden = true ∧ el.viHidden = true) :=
  ⟨(c1_fail_closed ⟨"variant", none, [("k", ["1"])], none, [], [("a.jpg", "7")], false⟩
      ⟨[⟨"a.jpg", false, false, false⟩], [⟨"b.jpg", false, false, false⟩]⟩ "v9"
      (by decide) rfl).2.1,
   (c1_fail_closed ⟨"variant", none, [("k", ["1"])], none, [], [("a.jpg", "7")], false⟩
      ⟨[⟨"a.jpg", false, false, false⟩], [⟨"b.jpg", false, false, false⟩]⟩ "v9"
      (by decide) rfl).2.2⟩

/-- C2, counterexample to the claim as stated: an element resolving to an
image ID that appears in no mapping entry, with `hideUnassignedImages`
false, is nonetheless hidden after a pass for a variant whose resolved
key has no mapping entry — the fail-closed branch hides everything
first. -/
theorem c2_counterexample :
    filterGallery ⟨"variant", none, [("k", ["1"])], none, [], [("a.jpg", "7")], false⟩
        ⟨[⟨"a.jpg", false, false, false⟩], []⟩ "v9"
      = ⟨[⟨"a.jpg", true, true, true⟩], []⟩ ∧
    (⟨"variant", none, [("k", ["1"])], none, [], [("a.jpg", "7")], false⟩ :
      FilterCtx).hideUnassigned = false ∧
    lookupKey [("a.jpg", "7")] (baseFilename "a.jpg") = some "7" ∧
    ∀ p ∈ ([("k", ["1"])] : List (String × List String)), "7" ∉ p.2 :=
  ⟨by decide, rfl, by decide, by decide⟩

/-- C2 (amended): with `hideUnassignedImages` false, a displayed element
resolving to an image ID that appears in no mapping entry is marked
visible by a recomputation pass for any selected variant whose resolved
mapping key has an entry in the table — for gallery elements always, and
for thumbnail elements whenever the gallery element query is non-empty
(an empty gallery makes the pass return before touching thumbnails). -/
theorem c2_unassigned_passthrough (ctx : FilterCtx) (st : PageState)
    (variantId : String) (allowed : List String) (el : Elem) (imgId : String)
    (h0 : variantId ≠ "")
    (h1 : lookupKey ctx.mappingTable (resolveMappingKey ctx variantId) = some allowed)
    (h2 : ctx.hideUnassigned = false)
    (h3 : lookupKey ctx.filenameToId (baseFilename el.src) = some imgId)
    (h4 : imgId ≠ "")
    (h5 : ∀ p ∈ ctx.mappingTable, imgId ∉ p.2) :
    (el ∈ st.gallery → setVisible el true ∈ (filterGallery ctx st variantId).gallery) ∧
    (el ∈ st.thumbs → st.gallery ≠ [] →
      setVisible el true ∈ (filterGallery ctx st variantId).thumbs) := by
  have hvis : decideVisible ctx allowed el = true := by
    unfold decideVisible
    simp only [h3]
    rw [if_neg h4]
    have hna : jsIncludes (allAssignedIds ctx.mappingTable) imgId = false := by
      rw [Bool.eq_false_iff]
      intro hc
      have hmem := jsIncludes_iff_mem.mp hc
      unfold allAssignedIds at hmem
      rcases List.mem_flatten.mp hmem with ⟨l2, hl2, hil⟩
      rcases List.mem_map.mp hl2 with ⟨p, hp, rfl⟩
      exact h5 p hp hil
    rw [h2, hna]
    simp
  have hfg : ∀ _ : st.gallery ≠ [],
      filterGallery ctx st variantId =
        { gallery := st.gallery.map (fun e => setVisible e (decideVisible ctx allowed e)),
          thumbs := st.thumbs.map (fun e => setVisible e (decideVisible ctx allowed e)) } := by
    intro hne
    unfold filterGallery
    rw [if_neg h0, h1]
    show (if st.gallery = [] then st else _) = _
    rw [if_neg hne]
  constructor
  · intro hel
    have hne : st.gallery ≠ [] := List.ne_nil_of_mem hel
    rw [hfg hne]
    simpa [hvis] using List.mem_map_of_mem (fun e => setVisible e (decideVisible ctx allowed e)) hel
  · intro hel hne
    rw [hfg hne]
    simpa [hvis] using List.mem_map_of_mem (fun e => setVisible e (decideVisible ctx allowed e)) hel

/-- C2 witness: with a mapped key selected, a previously hidden gallery
element and a thumbnail element carrying the unassigned image `7` are
both marked visible. -/
theorem c2_unassigned_passthrough_witness :
    (setVisible ⟨"a.jpg", true, true, true⟩ true ∈
      (filterGallery ⟨"variant", none, [("v1", ["1"])], none, [],
          [("a.jpg", "7"), ("b.jpg", "1")], false⟩
        ⟨[⟨"b.jpg", false, false, false⟩, ⟨"a.jpg", true, true, true⟩],
          [⟨"a.jpg", false, false, false⟩]⟩ "v1").gallery) ∧
    (setVisible ⟨"a.jpg", false, false, false⟩ true ∈
      (filterGallery ⟨"variant", none, [("v1", ["1"])], none, [],
          [("a.jpg", "7"), ("b.jpg", "1")], false⟩
        ⟨[⟨"b.jpg", false, false, false⟩, ⟨"a.jpg", true, true, true⟩],
          [⟨"a.jpg", false, false, false⟩]⟩ "v1").thumbs) :=
  ⟨(c2_unassigned_passthrough
      ⟨"variant", none, [("v1", ["1"])], none, [], [("a.jpg", "7"), ("b.jpg", "1")], false⟩
      ⟨[⟨"b.jpg", false, false, false⟩, ⟨"a.jpg", true, true, true⟩],
        [⟨"a.jpg", false, false, false⟩]⟩
      "v1" ["1"] ⟨"a.jpg", true, true, true⟩ "7"
      (by decide) rfl rfl (by decide) (by decide) (by decide)).1 (by decide),
   (c2_unassigned_passthrough
      ⟨"variant", none, [("v1", ["1"])], none, [], [("a.jpg", "7"), ("b.jpg", "1")], false⟩
      ⟨[⟨"b.jpg", false, false, false⟩, ⟨"a.jpg", true, true, true⟩],
        [⟨"a.jpg", false, false, false⟩]⟩
      "v1" ["1"] ⟨"a.jpg", false, false, false⟩ "7"
      (by decide) rfl rfl (by decide) (by decide) (by decide)).2 (by decide) (by decide)⟩

/-- C5: legacy migration union law — two variants (distinct numeric IDs)
sharing the selected value `X` of the migration target option, each
individually mapped to an image list in the legacy variant-ID-keyed
mapping, migrate to a canonical mapping assigning `X` exactly the
de-duplicated union of both lists (order-insensitive set union, no
error). -/
theorem c5_legacy_union (parse : String → Option Js)
    (oname X n1 n2 : String) (vals' : List String) (restOpts : List ProductOption)
    (imgs1 imgs2 : List String)
    (h1 : n1 ≠ "") (h2 : n2 ≠ "") (hne : n1 ≠ n2)
    (hg1 : toNumericId (Js.str n1) = n1) (hg2 : toNumericId (Js.str n2) = n2)
    (hm1 : n1 ≠ "mapping") (hm2 : n2 ≠ "mapping")
    (hmo1 : n1 ≠ "mode") (hmo2 : n2 ≠ "mode")
    (hX : X ≠ "")
    (hi1 : imgs1 ≠ []) (hi2 : imgs2 ≠ [])
    (hgood1 : ∀ i ∈ imgs1, i ≠ "" ∧ toNumericId (Js.str i) = i)
    (hgood2 : ∀ i ∈ imgs2, i ≠ "" ∧ toNumericId (Js.str i) = i) :
    (normalizeProductMapping parse
        (Js.obj [(n1, Js.arr (imgs1.map Js.str)), (n2, Js.arr (imgs2.map Js.str))])
        (⟨oname, vals'⟩ :: restOpts)
        [⟨Js.str n1, [(oname, X)]⟩, ⟨Js.str n2, [(oname, X)]⟩] []).mode = "option" ∧
    (normalizeProductMapping parse
        (Js.obj [(n1, Js.arr (imgs1.map Js.str)), (n2, Js.arr (imgs2.map Js.str))])
        (⟨oname, vals'⟩ :: restOpts)
        [⟨Js.str n1, [(oname, X)]⟩, ⟨Js.str n2, [(oname, X)]⟩] []).optionName = oname ∧
    ∃ u, lookupKey (normalizeProductMapping parse
        (Js.obj [(n1, Js.arr (imgs1.map Js.str)), (n2, Js.arr (imgs2.map Js.str))])
        (⟨oname, vals'⟩ :: restOpts)
        [⟨Js.str n1, [(oname, X)]⟩, ⟨Js.str n2, [(oname, X)]⟩] []).mapping X = some u ∧
      u.Nodup ∧ ∀ i, (i ∈ u ↔ (i ∈ imgs1 ∨ i ∈ imgs2)) := by
  have h1f : (n1 = "") = False := eq_false h1
  have h2f : (n2 = "") = False := eq_false h2
  have hnef : (n1 = n2) = False := eq_false hne
  have hXf : (X = "") = False := eq_false hX
  have hd1f : (jsDedup imgs1 = []) = False := eq_false (jsDedup_ne_nil hi1)
  have hd2f : (jsDedup imgs2 = []) = False := eq_false (jsDedup_ne_nil hi2)
  have hJ1 : jsIncludes [n1, n2] n1 = true := by simp [jsIncludes]
  have hJ2 : jsIncludes [n1, n2] n2 = true := by simp [jsIncludes]
  have hfindmode : List.find? (fun p => p.1 = "mode")
      [(n1, Js.arr (imgs1.map Js.str)), (n2, Js.arr (imgs2.map Js.str))] = none := by
    rw [List.find?_eq_none]
    intro p hp
    rcases List.mem_cons.mp hp with rfl | hp2
    · simp [hmo1]
    · rcases List.mem_cons.mp hp2 with rfl | hp3
      · simp [hmo2]
      · simp at hp3
  have hfindmap : List.find? (fun p => p.1 = "mapping")
      [(n1, Js.arr (imgs1.map Js.str)), (n2, Js.arr (imgs2.map Js.str))] = none := by
    rw [List.find?_eq_none]
    intro p hp
    rcases List.mem_cons.mp hp with rfl | hp2
    · simp [hm1]
    · rcases List.mem_cons.mp hp2 with rfl | hp3
      · simp [hm2]
      · simp at hp3
  have hiom : isOptionMode
      (Js.obj [(n1, Js.arr (imgs1.map Js.str)), (n2, Js.arr (imgs2.map Js.str))]) = false := by
    simp only [isOptionMode, getField, hfindmode, Option.map_none']
  have hsrc : sourceOf
      (Js.obj [(n1, Js.arr (imgs1.map Js.str)), (n2, Js.arr (imgs2.map Js.str))])
      = Js.obj [(n1, Js.arr (imgs1.map Js.str)), (n2, Js.arr (imgs2.map Js.str))] := by
    simp only [sourceOf, getField, hfindmap, Option.map_none']
  have hmk1 : mkImageIds (imgs1.map Js.str) none = jsDedup imgs1 := by
    unfold mkImageIds
    have hmm : (imgs1.map Js.str).map toNumericId = imgs1 := by
      rw [List.map_map]
      have hc : ∀ i ∈ imgs1, (toNumericId ∘ Js.str) i = id i := fun i hi => (hgood1 i hi).2
      rw [List.map_congr_left hc, List.map_id]
    rw [hmm]
    have hfil : imgs1.filter (fun i => decide (i ≠ "")) = imgs1 :=
      List.filter_eq_self.mpr (fun a ha => by simp [(hgood1 a ha).1])
    rw [hfil]
    simp
  have hmk2 : mkImageIds (imgs2.map Js.str) none = jsDedup imgs2 := by
    unfold mkImageIds
    have hmm : (imgs2.map Js.str).map toNumericId = imgs2 := by
      rw [List.map_map]
      have hc : ∀ i ∈ imgs2, (toNumericId ∘ Js.str) i = id i := fun i hi => (hgood2 i hi).2
      rw [List.map_congr_left hc, List.map_id]
    rw [hmm]
    have hfil : imgs2.filter (fun i => decide (i ≠ "")) = imgs2 :=
      List.filter_eq_self.mpr (fun a ha => by simp [(hgood2 a ha).1])
    rw [hfil]
    simp
  have hA : normalizeMapping parse
      (Js.obj [(n1, Js.arr (imgs1.map Js.str)), (n2, Js.arr (imgs2.map Js.str))])
      [Js.str n1, Js.str n2] []
      = [(n1, jsDedup imgs1), (n2, jsDedup imgs2)] := by
    unfold normalizeMapping
    rw [show safeParseJson parse
        (Js.obj [(n1, Js.arr (imgs1.map Js.str)), (n2, Js.arr (imgs2.map Js.str))])
        (Js.obj [])
        = Js.obj [(n1, Js.arr (imgs1.map Js.str)), (n2, Js.arr (imgs2.map Js.str))] from rfl]
    rw [hsrc]
    show nmLoop (some [toNumericId (Js.str n1), toNumericId (Js.str n2)]) none
      [(n1, Js.arr (imgs1.map Js.str)), (n2, Js.arr (imgs2.map Js.str))] [] = _
    rw [hg1, hg2]
    simp only [nmLoop, hg1, hg2, candidateImagesOf, hmk1, hmk2, h1f, h2f, hJ1, hJ2,
      hd1f, hd2f, Bool.not_true, Bool.false_eq_true, if_false, setKey, containsKey,
      List.any_nil, List.any_cons, hnef, decide_False, Bool.or_self, Bool.or_false,
      List.nil_append, List.cons_append, List.map_nil]
  have hB : buildOptionValueByVariant
      [⟨Js.str n1, [(oname, X)]⟩, ⟨Js.str n2, [(oname, X)]⟩] oname
      = [(n1, some X), (n2, some X)] := by
    unfold buildOptionValueByVariant selectedValueFor
    simp [List.foldl, hg1, hg2, List.find?, setKey, containsKey, hnef]
  have hc5 : normalizeProductMapping parse
      (Js.obj [(n1, Js.arr (imgs1.map Js.str)), (n2, Js.arr (imgs2.map Js.str))])
      (⟨oname, vals'⟩ :: restOpts)
      [⟨Js.str n1, [(oname, X)]⟩, ⟨Js.str n2, [(oname, X)]⟩] []
      = { mode := "option", optionName := oname,
          mapping := [(X, jsDedup (jsDedup imgs1 ++ jsDedup imgs2))] } := by
    unfold normalizeProductMapping
    rw [show safeParseJson parse
        (Js.obj [(n1, Js.arr (imgs1.map Js.str)), (n2, Js.arr (imgs2.map Js.str))])
        (Js.obj [])
        = Js.obj [(n1, Js.arr (imgs1.map Js.str)), (n2, Js.arr (imgs2.map Js.str))] from rfl]
    rw [if_neg (by rw [hiom]; simp)]
    have hmapv : List.map (fun v => v.id)
        [(⟨Js.str n1, [(oname, X)]⟩ : Variant), ⟨Js.str n2, [(oname, X)]⟩]
        = [Js.str n1, Js.str n2] := rfl
    rw [hmapv, hA]
    rw [show fallbackOptionName (⟨oname, vals'⟩ :: restOpts) = oname from rfl]
    rw [hB]
    simp only [CanonicalMapping.mk.injEq, true_and]
    simp only [legacyLoop, lookupKey, eq_self_iff_true, if_true, hXf, if_false,
      Option.getD_none, Option.getD_some, hnef, setKey, containsKey,
      List.any_nil, List.any_cons, decide_False, decide_True,
      Bool.or_self, Bool.or_false, Bool.or_true, Bool.false_eq_true,
      List.nil_append, List.cons_append, List.map_cons, List.map_nil,
      jsDedup_eq_self (nodup_jsDedup imgs1)]
  refine ⟨by rw [hc5], by rw [hc5], ?_⟩
  refine ⟨jsDedup (jsDedup imgs1 ++ jsDedup imgs2), ?_, nodup_jsDedup _, ?_⟩
  · rw [hc5]
    simp [lookupKey]
  · intro i
    rw [mem_jsDedup, List.mem_append, mem_jsDedup, mem_jsDedup]

/-- C5 witness: two variants `1` and `2` both selecting `Color = Black`,
legacy-mapped to `a` and `b` respectively, migrate to the union. -/
theorem c5_legacy_union_witness :
    (normalizeProductMapping noParse
        (Js.obj [("1", Js.arr (["a"].map Js.str)), ("2", Js.arr (["b"].map Js.str))])
        (⟨"Color", ["Black"]⟩ :: [])
        [⟨Js.str "1", [("Color", "Black")]⟩, ⟨Js.str "2", [("Color", "Black")]⟩] []).mode
      = "option" ∧
    (normalizeProductMapping noParse
        (Js.obj [("1", Js.arr (["a"].map Js.str)), ("2", Js.arr (["b"].map Js.str))])
        (⟨"Color", ["Black"]⟩ :: [])
        [⟨Js.str "1", [("Color", "Black")]⟩, ⟨Js.str "2", [("Color", "Black")]⟩] []).optionName
      = "Color" ∧
    ∃ u, lookupKey (normalizeProductMapping noParse
        (Js.obj [("1", Js.arr (["a"].map Js.str)), ("2", Js.arr (["b"].map Js.str))])
        (⟨"Color", ["Black"]⟩ :: [])
        [⟨Js.str "1", [("Color", "Black")]⟩, ⟨Js.str "2", [("Color", "Black")]⟩] []).mapping
        "Black" = some u ∧
      u.Nodup ∧ ∀ i, (i ∈ u ↔ (i ∈ ["a"] ∨ i ∈ ["b"])) :=
  c5_legacy_union noParse "Color" "Black" "1" "2" ["Black"] [] ["a"] ["b"]
    (by decide) (by decide) (by decide) (by decide) (by decide) (by decide) (by decide)
    (by decide) (by decide) (by decide) (by decide) (by decide) (by decide) (by decide)

/-- C8: the base-filename function strips query parameters (splitting at
a `?` leaves the result unchanged), takes the final path segment, and
removes a trailing `_\d*x\d*` size suffix before the extension; in
particular `.../a_800x.jpg?v=2` and `.../a_400x600.jpg` both resolve to
the identity key `a.jpg`. -/
theorem c8_filename_identity :
    (∀ p q : String, '?' ∉ p.data → baseFilename (p ++ "?" ++ q) = baseFilename p) ∧
    (∀ d n : String, '?' ∉ d.data → '?' ∉ n.data → '/' ∉ n.data →
      baseFilename (d ++ "/" ++ n) = stripSizeSuffix n) ∧
    baseFilename "https://cdn.example.com/files/a_800x.jpg?v=2" = "a.jpg" ∧
    baseFilename "https://cdn.example.com/files/a_400x600.jpg" = "a.jpg" ∧
    stripSizeSuffix "a_800x.jpg" = "a.jpg" ∧
    stripSizeSuffix "a_800x600.jpg" = "a.jpg" ∧
    stripSizeSuffix "a_x600.jpg" = "a.jpg" ∧
    stripSizeSuffix "a.jpg" = "a.jpg" := by
  refine ⟨?_, ?_, by decide, by decide, by decide, by decide, by decide, by decide⟩
  · intro p q hp
    have hdata : (p ++ "?" ++ q).data = p.data ++ '?' :: q.data := by
      rw [String.data_append, String.data_append]
      simp [List.append_assoc]
    unfold baseFilename baseFilenameL
    rw [hdata]
    rw [splitOnChar_append_cons]
    by_cases hp0 : p = ""
    · subst hp0
      simp [splitOnChar, List.getLastD]
      rfl
    · have hpd : p.data ≠ [] := by
        intro hd
        apply hp0
        have := congrArg String.mk hd
        rwa [string_mk_data] at this
      rw [if_neg (by simp), if_neg hpd]
      rw [splitOnChar_of_not_mem hp]
      simp
  · intro d n hd hn hsl
    have hdata : (d ++ "/" ++ n).data = d.data ++ '/' :: n.data := by
      rw [String.data_append, String.data_append]
      simp [List.append_assoc]
    unfold baseFilename baseFilenameL stripSizeSuffix
    rw [hdata]
    have hq : '?' ∉ d.data ++ '/' :: n.data := by
      intro hmem
      rcases List.mem_append.mp hmem with h | h
      · exact hd h
      · rcases List.mem_cons.mp h with h | h
        · cases h
        · exact hn h
    rw [if_neg (by simp), splitOnChar_of_not_mem hq]
    simp only [List.headD]
    rw [splitOnChar_append_cons, splitOnChar_of_not_mem hsl, List.getLastD_concat]

/-- C8 witness: the query-strip clause applied at a concrete URL. -/
theorem c8_filename_identity_witness :
    ('?' ∉ ("https://c/a.jpg" : String).data) ∧
    baseFilename ("https://c/a.jpg" ++ "?" ++ "v=9") = baseFilename "https://c/a.jpg" :=
  ⟨by decide, c8_filename_identity.1 "https://c/a.jpg" "v=9" (by decide)⟩

theorem lookupKey_map_cond {α : Type} (m : List (String × α)) (k : String)
    (f : String × α → String × α)
    (hf : ∀ p, p.1 = k → f p = p) (hk : ∀ p, (f p).1 = p.1) :
    lookupKey (m.map f) k = lookupKey m k := by
  induction m with
  | nil => rfl
  | cons p rest ih =>
    simp only [List.map_cons, lookupKey, hk p]
    by_cases h : p.1 = k
    · rw [if_pos h, if_pos h, hf p h]
    · rw [if_neg h, if_neg h, ih]

/-- C9: exclusivity toggle — with `allowSharedImages` false, the
image-tile assignment that adds an image ID to the active option value
also removes that ID from every other value's list, and the "Select all"
assignment removes every assigned ID from every other value's list, so
the same image ID never ends up under two distinct option values as a
result of the write. -/
theorem c9_exclusivity (prev : List (String × List String)) (active imageId : String)
    (hadd : imageId ∉ (lookupKey prev active).getD []) :
    (imageId ∈ (lookupKey (toggleImage false prev active imageId) active).getD [] ∧
      ∀ p ∈ toggleImage false prev active imageId, p.1 ≠ active → imageId ∉ p.2) ∧
    (∀ (allIds : List String) (q : String × List String),
      q ∈ selectAllImages false prev active allIds → q.1 ≠ active →
        ∀ i ∈ q.2, i ∉ allIds) := by
  have hsel : jsIncludes ((lookupKey prev active).getD []) imageId = false :=
    Bool.eq_false_iff.mpr (fun h => hadd (jsIncludes_iff_mem.mp h))
  constructor
  · have htog : toggleImage false prev active imageId
        = (setKey prev active (((lookupKey prev active).getD []) ++ [imageId])).map
          (fun p => if p.1 = active then p
            else (p.1, p.2.filter (fun id => id ≠ imageId))) := by
      unfold toggleImage
      rw [hsel]
      simp only [Bool.not_false, Bool.and_self, if_true, Bool.false_eq_true, if_false]
    constructor
    · rw [htog]
      rw [lookupKey_map_cond _ _ _ (fun p hp => by simp [hp]) (fun p => by
        by_cases h : p.1 = active <;> simp [h])]
      rw [lookupKey_setKey_self]
      simp
    · intro p hp hpa
      rw [htog] at hp
      rcases List.mem_map.mp hp with ⟨q, hq, rfl⟩
      by_cases h : q.1 = active
      · rw [if_pos h] at hpa ⊢
        exact absurd h hpa
      · rw [if_neg h]
        intro hmem
        have := List.mem_filter.mp hmem
        simp at this
  · intro allIds q hq hqa
    unfold selectAllImages at hq
    simp only [Bool.not_false, if_true] at hq
    rcases mem_setKey hq with rfl | hq2
    · exact absurd rfl hqa
    · rcases List.mem_map.mp hq2 with ⟨r, hr, rfl⟩
      by_cases h : r.1 = active
      · rw [if_pos h] at hqa
        exact absurd h hqa
      · rw [if_neg h]
        intro i hi hial
        rcases List.mem_filter.mp hi with ⟨_, hfl⟩
        rw [jsIncludes_iff_mem.mpr hial] at hfl
        simp at hfl

/-- C9 witness: adding image `1` to `Red` removes it from `Black`, and a
select-all over `Red` strips the selected IDs from `Black`. -/
theorem c9_exclusivity_witness :
    (("1" : String) ∈
        (lookupKey (toggleImage false [("Black", ["1"])] "Red" "1") "Red").getD [] ∧
      ∀ p ∈ toggleImage false [("Black", ["1"])] "Red" "1", p.1 ≠ "Red" → "1" ∉ p.2) ∧
    (∀ (allIds : List String) (q : String × List String),
      q ∈ selectAllImages false [("Black", ["1"])] "Red" allIds → q.1 ≠ "Red" →
        ∀ i ∈ q.2, i ∉ allIds) :=
  c9_exclusivity [("Black", ["1"])] "Red" "1" (by decide)

/-- C10: when the embedded settings carry `enabled = false`, the
storefront bootstrap changes no element state and installs no
variant-change handling — it returns the page untouched with the
initialization flag off, for every mapping, identity table, variant and
page state. -/
theorem c10_disabled_no_effect (parse : String → Option Js) (cfg : BootConfig)
    (currentVariantId : String) (st : PageState)
    (hdis : getFieldNN
        (match cfg.settings with | Js.str s => (parse s).getD Js.null | j => j)
        "enabled" = some (Js.bool false)) :
    boot parse cfg currentVariantId st = (st, false) := by
  unfold boot
  split
  · rfl
  · split
    · rfl
    · rw [hdis]
      simp [jsTruthy]

/-- C10 witness: a concrete disabled configuration leaves a visible
gallery untouched. -/
theorem c10_disabled_no_effect_witness :
    getFieldNN
        (match (⟨Js.obj [("a", Js.arr [Js.str "1"])], Js.obj [("1", Js.str "u/a.jpg")], "1",
            Js.obj [("enabled", Js.bool false)], none, []⟩ : BootConfig).settings with
          | Js.str s => (noParse s).getD Js.null
          | j => j) "enabled" = some (Js.bool false) ∧
    boot noParse
        ⟨Js.obj [("a", Js.arr [Js.str "1"])], Js.obj [("1", Js.str "u/a.jpg")], "1",
          Js.obj [("enabled", Js.bool false)], none, []⟩ "1"
        ⟨[⟨"u/a.jpg", false, false, false⟩], []⟩
      = (⟨[⟨"u/a.jpg", false, false, false⟩], []⟩, false) :=
  ⟨rfl, c10_disabled_no_effect noParse
    ⟨Js.obj [("a", Js.arr [Js.str "1"])], Js.obj [("1", Js.str "u/a.jpg")], "1",
      Js.obj [("enabled", Js.bool false)], none, []⟩ "1"
    ⟨[⟨"u/a.jpg", false, false, false⟩], []⟩ rfl⟩

end VariantImage
